import Mathlib

/-!
Verification of the forest-go core against its specification.

The development shallowly embeds the parts of the repository that the
checked properties talk about:

* the byte-level primitive codecs and the TLV (descriptor + payload)
  "qualified value" codec (`fields/qualifieds.go`, `forest.go`);
* the node model with its four variants and their binary
  marshal/unmarshal and equality operations (`nodes.go`);
* `MemoryStore` and `CacheStore` (`store.go`);
* the pub/sub `Archive` wrapper (`store/archive.go`);
* the breadth-first `Walk` and the two `DescendantsOf` implementations
  (`store/extended-store.go`, `store/archive.go`, `archive/archive.go`);
* `QualifiedContent.Validate` with its UTF-8 and twig branches
  (`fields/qualifieds.go`, `twig/twig.go`).

Machine integers are embedded as `Nat` with explicit width bounds where
they matter; Go byte slices are embedded as `List Nat`; Go maps are
embedded as association lists whose iteration order refines Go's
unspecified map order (all order-sensitive conclusions below are either
order-independent or about genuinely ordered Go slices); fallible Go
functions return an explicit result type that distinguishes a returned
error from a run-time panic.
-/

namespace ForestGo

/-- Result of a Go-style fallible decode: a success value, a returned
error, or a run-time panic (for example a slice-bound violation). -/
inductive DRes (α : Type) where
  | ok (val : α)
  | fail
  | panicked
  deriving DecidableEq

/-- Sequencing of fallible decodes: errors and panics propagate. -/
def DRes.bind {α β : Type} : DRes α → (α → DRes β) → DRes β
  | .ok a, f => f a
  | .fail, _ => .fail
  | .panicked, _ => .panicked

/-- Big-endian encoding of `v` into `w` bytes, mirroring what Go's
`binary.Write(buf, binary.BigEndian, v)` produces for the fixed-width
unsigned integer types used by the wire format (`forest.go`:
`GenericType` is one byte, `ContentLength` two, `TreeDepth` four,
`Varint`/`Version` eight). -/
def encW : Nat → Nat → List Nat
  | 0, _ => []
  | w + 1, v => v / 2 ^ (8 * w) :: encW w (v % 2 ^ (8 * w))

/-- Big-endian decode of `w` bytes accumulating into `acc`, returning the
remaining bytes; fails (as Go's `binary.Read` does with
`io.ErrUnexpectedEOF`) when fewer than `w` bytes remain. -/
def parseU : Nat → Nat → List Nat → DRes (Nat × List Nat)
  | 0, acc, rest => .ok (acc, rest)
  | _ + 1, _, [] => .fail
  | w + 1, acc, b :: rest => parseU w (acc * 256 + b) rest

/-- A type/length descriptor: a one-byte type tag followed by a
big-endian `u16` length (`Descriptor` in `forest.go`; the
`HashDescriptor`/`ContentDescriptor`/`KeyDescriptor`/`SignatureDescriptor`
namespaces share this shape). -/
structure Descr where
  dtype : Nat
  dlength : Nat
  deriving DecidableEq

/-- Width bounds for a descriptor's fields (`GenericType uint8`,
`ContentLength uint16`). -/
def Descr.WF (d : Descr) : Prop := d.dtype < 256 ∧ d.dlength < 65536

instance (d : Descr) : Decidable d.WF := by unfold Descr.WF; infer_instance

/-- Serialization of a descriptor: type byte then length bytes
(`Descriptor.MarshalBinary` in `forest.go`; identical in the `fields`
package, whose `HashDescriptor.SerializationOrder` expands to exactly
these two primitive fields). -/
def encodeDescriptor (d : Descr) : List Nat := encW 1 d.dtype ++ encW 2 d.dlength

/-- Modelled from the spec: `serialize.ArborDeserialize` applied to a
descriptor struct (the `serialize` package is absent from the sources;
its regression test `TestSerializeBoundsCheck` and spec section 4.1
require that a decode that would consume more bytes than exist fails
cleanly). Reads the one-byte tag and two-byte length progressively and
returns the remaining bytes. -/
def decodeDescriptor (b : List Nat) : DRes (Descr × List Nat) :=
  DRes.bind (parseU 1 0 b) fun p1 =>
  DRes.bind (parseU 2 0 p1.2) fun p2 =>
  .ok (⟨p1.1, p2.1⟩, p2.2)

/-- A qualified TLV value: descriptor plus payload blob.
`QualifiedHash`, `QualifiedContent`, `QualifiedKey` and
`QualifiedSignature` in `fields/qualifieds.go` all share this shape and
differ only in the descriptor namespace. -/
structure Qualified where
  descriptor : Descr
  blob : List Nat
  deriving DecidableEq

/-- Well-formedness of a qualified value: descriptor fields within their
widths and the declared length equal to the payload length (the invariant
`payload.length == descriptor.length` of spec section 3, established by
the `NewQualified*` constructors). -/
def Qualified.WF (q : Qualified) : Prop :=
  q.descriptor.WF ∧ q.descriptor.dlength = q.blob.length

instance (q : Qualified) : Decidable q.WF := by unfold Qualified.WF; infer_instance

/-- Serialization of a qualified value: descriptor bytes then the raw
blob (`Qualified.MarshalBinary` in `forest.go`, and the
`arbor:"order=0"`/`arbor:"order=1"` field order in `fields/qualifieds.go`). -/
def marshalQualified (q : Qualified) : List Nat := encodeDescriptor q.descriptor ++ q.blob

/-- Embeds the shared body of `QualifiedHash.UnmarshalBinary`
(`fields/qualifieds.go` lines 63-69) and its three clones: deserialize
the descriptor, then evaluate the Go slice expression
`unused[:q.Descriptor.Length]` and hand that slice to
`Blob.UnmarshalBinary`. The slice expression carries no bounds check: in
Go it panics when the declared length exceeds the capacity of the
remaining buffer (for an exactly-sized input buffer, capacity equals the
remaining length, which is the case embedded here); `.panicked` records
that outcome. -/
def unmarshalQualified (b : List Nat) : DRes (Qualified × List Nat) :=
  DRes.bind (decodeDescriptor b) fun p =>
  if p.1.dlength ≤ p.2.length then
    .ok (⟨p.1, p.2.take p.1.dlength⟩, p.2.drop p.1.dlength)
  else
    .panicked

/-- `QualifiedHash.UnmarshalBinary`, `fields/qualifieds.go` lines 63-69. -/
def qualifiedHashUnmarshalBinary (b : List Nat) : DRes (Qualified × List Nat) :=
  unmarshalQualified b

/-- `QualifiedContent.UnmarshalBinary`, `fields/qualifieds.go` lines 128-134. -/
def qualifiedContentUnmarshalBinary (b : List Nat) : DRes (Qualified × List Nat) :=
  unmarshalQualified b

/-- `QualifiedKey.UnmarshalBinary`, `fields/qualifieds.go` lines 200-206. -/
def qualifiedKeyUnmarshalBinary (b : List Nat) : DRes (Qualified × List Nat) :=
  unmarshalQualified b

/-- `QualifiedSignature.UnmarshalBinary`, `fields/qualifieds.go` lines 267-273. -/
def qualifiedSignatureUnmarshalBinary (b : List Nat) : DRes (Qualified × List Nat) :=
  unmarshalQualified b

/-- The fields shared by every node variant (`commonNode` in `nodes.go`).
The `id` field is never serialized; it is recomputed from the decoded
bytes on every unmarshal. Field widths follow the primitive types of
`forest.go` (`Version`/`Varint` eight bytes, `NodeType` one byte,
`TreeDepth` four bytes). -/
structure CommonNode where
  id : List Nat
  ntype : Nat
  schemaVersion : Nat
  parent : Qualified
  idDesc : Descr
  depth : Nat
  metadata : Qualified
  signatureAuthority : Qualified
  signature : Qualified
  deriving DecidableEq

/-- Width bounds and TLV invariants for every common field. -/
def CommonNode.WF (n : CommonNode) : Prop :=
  n.schemaVersion < 2 ^ 64 ∧ n.ntype < 256 ∧ n.parent.WF ∧ n.idDesc.WF ∧
  n.depth < 2 ^ 32 ∧ n.metadata.WF ∧ n.signatureAuthority.WF ∧ n.signature.WF

instance (n : CommonNode) : Decidable n.WF := by unfold CommonNode.WF; infer_instance



/-- Serialization of the pre-signature common fields in the order fixed
by `commonNode.presignSerializationOrder` (`nodes.go` lines 33-44):
schema version, node type, parent, id descriptor (expanded to its type
and length), tree depth, metadata, signature authority. -/
def marshalPresign (n : CommonNode) : List Nat :=
  encW 8 n.schemaVersion ++ encW 1 n.ntype ++ marshalQualified n.parent ++
  encodeDescriptor n.idDesc ++ encW 4 n.depth ++ marshalQualified n.metadata ++
  marshalQualified n.signatureAuthority

/-- Placeholder qualified value, standing for the zero value a freshly
allocated Go node carries before a field is populated by decoding. -/
def emptyQualified : Qualified := ⟨⟨0, 0⟩, []⟩

/-- Progressive decode of the pre-signature common fields
(`commonNode.unmarshalBinaryPreamble`, driven by `fields.UnmarshalAll`,
which is absent from the sources; modelled from spec section 4.1's
progressive-decode contract: each field consumes a prefix of the buffer
and passes the remainder on). The `id` and `signature` fields are left
at their zero values, exactly as in the Go control flow where they are
populated later. -/
def parsePresign (b : List Nat) : DRes (CommonNode × List Nat) :=
  DRes.bind (parseU 8 0 b) fun pver =>
  DRes.bind (parseU 1 0 pver.2) fun pty =>
  DRes.bind (unmarshalQualified pty.2) fun ppar =>
  DRes.bind (decodeDescriptor ppar.2) fun pidd =>
  DRes.bind (parseU 4 0 pidd.2) fun pdep =>
  DRes.bind (unmarshalQualified pdep.2) fun pmd =>
  DRes.bind (unmarshalQualified pmd.2) fun psa =>
  .ok ({ id := [], ntype := pty.1, schemaVersion := pver.1, parent := ppar.1,
         idDesc := pidd.1, depth := pdep.1, metadata := pmd.1,
         signatureAuthority := psa.1, signature := emptyQualified }, psa.2)

/-- Modelled from the spec: the digest algorithm selected by the id
descriptor's type tag (SHA-512/256 in practice) is an external
cryptographic primitive not implemented by the core; spec section 3 only
requires the id to be a deterministic digest of the pre-signature bytes.
It is embedded as a concrete deterministic function of the hash type tag
and the input bytes, and no theorem below depends on anything beyond its
determinism. -/
def digest (hashType : Nat) (b : List Nat) : List Nat :=
  [hashType % 256, b.length % 256, b.foldl (fun acc x => (acc * 31 + x) % 256) 7]

/-- Identity node (`nodes.go` lines 96-100): common fields plus a name
and a public key. -/
structure Identity where
  common : CommonNode
  name : Qualified
  publicKey : Qualified
  deriving DecidableEq

/-- Community node (`nodes.go` lines 218-221): common fields plus a name. -/
structure Community where
  common : CommonNode
  name : Qualified
  deriving DecidableEq

/-- Conversation node (`nodes.go` lines 289-292): common fields plus a
content payload. -/
structure Conversation where
  common : CommonNode
  content : Qualified
  deriving DecidableEq

/-- Reply node (`nodes.go` lines 360-364): common fields plus a
community id and a content payload. -/
structure Reply where
  common : CommonNode
  communityID : Qualified
  content : Qualified
  deriving DecidableEq

/-- `Identity.MarshalSignedData` (`nodes.go` lines 121-130): the
pre-signature common fields followed by the variant fields in
`nodeSpecificSerializationOrder` (name, public key). -/
def identityMarshalSignedData (i : Identity) : List Nat :=
  marshalPresign i.common ++ marshalQualified i.name ++ marshalQualified i.publicKey

/-- `Identity.MarshalBinary` (`nodes.go` lines 132-142): the signed data
followed by the signature. -/
def identityMarshalBinary (i : Identity) : List Nat :=
  identityMarshalSignedData i ++ marshalQualified i.common.signature

/-- The recomputed identifier of an identity node: the digest, under the
algorithm named by the id descriptor, of the signed (pre-signature)
bytes. Embeds `computeID` as spec section 3 defines it (the function
itself lives in a file absent from the sources). -/
def identityComputeID (i : Identity) : List Nat :=
  digest i.common.idDesc.dtype (identityMarshalSignedData i)

/-- `Identity.UnmarshalBinary` (`nodes.go` lines 152-163): decode the
full serialization order, then recompute and store the id. Leftover
bytes after the signature are ignored, as in the source (the first
return of `fields.UnmarshalAll` is discarded). -/
def unmarshalIdentity (b : List Nat) : DRes Identity :=
  DRes.bind (parsePresign b) fun pc =>
  DRes.bind (unmarshalQualified pc.2) fun pnm =>
  DRes.bind (unmarshalQualified pnm.2) fun ppk =>
  DRes.bind (unmarshalQualified ppk.2) fun psg =>
  let node : Identity :=
    { common := { pc.1 with signature := psg.1 }, name := pnm.1, publicKey := ppk.1 }
  .ok { node with common := { node.common with id := identityComputeID node } }

/-- `Community.MarshalSignedData` (`nodes.go` lines 240-249). -/
def communityMarshalSignedData (c : Community) : List Nat :=
  marshalPresign c.common ++ marshalQualified c.name

/-- `Community.MarshalBinary` (`nodes.go` lines 251-261). -/
def communityMarshalBinary (c : Community) : List Nat :=
  communityMarshalSignedData c ++ marshalQualified c.common.signature

/-- Recomputed identifier of a community node. -/
def communityComputeID (c : Community) : List Nat :=
  digest c.common.idDesc.dtype (communityMarshalSignedData c)

/-- `Community.UnmarshalBinary` (`nodes.go` lines 271-282). -/
def unmarshalCommunity (b : List Nat) : DRes Community :=
  DRes.bind (parsePresign b) fun pc =>
  DRes.bind (unmarshalQualified pc.2) fun pnm =>
  DRes.bind (unmarshalQualified pnm.2) fun psg =>
  let node : Community := { common := { pc.1 with signature := psg.1 }, name := pnm.1 }
  .ok { node with common := { node.common with id := communityComputeID node } }

/-- `Conversation.MarshalSignedData` (`nodes.go` lines 311-320). -/
def conversationMarshalSignedData (c : Conversation) : List Nat :=
  marshalPresign c.common ++ marshalQualified c.content

/-- `Conversation.MarshalBinary` (`nodes.go` lines 322-332). -/
def conversationMarshalBinary (c : Conversation) : List Nat :=
  conversationMarshalSignedData c ++ marshalQualified c.common.signature

/-- Recomputed identifier of a conversation node. -/
def conversationComputeID (c : Conversation) : List Nat :=
  digest c.common.idDesc.dtype (conversationMarshalSignedData c)

/-- `Conversation.UnmarshalBinary` (`nodes.go` lines 342-353). -/
def unmarshalConversation (b : List Nat) : DRes Conversation :=
  DRes.bind (parsePresign b) fun pc =>
  DRes.bind (unmarshalQualified pc.2) fun pct =>
  DRes.bind (unmarshalQualified pct.2) fun psg =>
  let node : Conversation := { common := { pc.1 with signature := psg.1 }, content := pct.1 }
  .ok { node with common := { node.common with id := conversationComputeID node } }

/-- `Reply.MarshalSignedData` (`nodes.go` lines 383-392): variant fields
are the community id then the content. -/
def replyMarshalSignedData (r : Reply) : List Nat :=
  marshalPresign r.common ++ marshalQualified r.communityID ++ marshalQualified r.content

/-- `Reply.MarshalBinary` (`nodes.go` lines 394-404). -/
def replyMarshalBinary (r : Reply) : List Nat :=
  replyMarshalSignedData r ++ marshalQualified r.common.signature

/-- Recomputed identifier of a reply node. -/
def replyComputeID (r : Reply) : List Nat :=
  digest r.common.idDesc.dtype (replyMarshalSignedData r)

/-- `Reply.UnmarshalBinary` (`nodes.go` lines 414-425). -/
def unmarshalReply (b : List Nat) : DRes Reply :=
  DRes.bind (parsePresign b) fun pc =>
  DRes.bind (unmarshalQualified pc.2) fun pcid =>
  DRes.bind (unmarshalQualified pcid.2) fun pct =>
  DRes.bind (unmarshalQualified pct.2) fun psg =>
  let node : Reply :=
    { common := { pc.1 with signature := psg.1 }, communityID := pcid.1, content := pct.1 }
  .ok { node with common := { node.common with id := replyComputeID node } }

/-- Well-formedness of an identity node: every field within bounds and
the stored id equal to the recomputed digest (a node produced by the
builder or by decoding always satisfies this). -/
def Identity.WF (i : Identity) : Prop :=
  i.common.WF ∧ i.name.WF ∧ i.publicKey.WF ∧ i.common.id = identityComputeID i

/-- Well-formedness of a community node. -/
def Community.WF (c : Community) : Prop :=
  c.common.WF ∧ c.name.WF ∧ c.common.id = communityComputeID c

/-- Well-formedness of a conversation node. -/
def Conversation.WF (c : Conversation) : Prop :=
  c.common.WF ∧ c.content.WF ∧ c.common.id = conversationComputeID c

/-- Well-formedness of a reply node. -/
def Reply.WF (r : Reply) : Prop :=
  r.common.WF ∧ r.communityID.WF ∧ r.content.WF ∧ r.common.id = replyComputeID r

instance (i : Identity) : Decidable i.WF := by unfold Identity.WF; infer_instance

instance (c : Community) : Decidable c.WF := by unfold Community.WF; infer_instance

instance (c : Conversation) : Decidable c.WF := by unfold Conversation.WF; infer_instance

instance (r : Reply) : Decidable r.WF := by unfold Reply.WF; infer_instance

/-- `commonNode.Equals` (`nodes.go` lines 81-90): field-by-field
comparison of the shared fields; the derived `id` is not compared. -/
def commonNodeEquals (a b : CommonNode) : Bool :=
  a.ntype == b.ntype && a.schemaVersion == b.schemaVersion && a.parent == b.parent &&
  a.idDesc == b.idDesc && a.depth == b.depth && a.metadata == b.metadata &&
  a.signatureAuthority == b.signatureAuthority && a.signature == b.signature

/-- `Reply.Equals` (`nodes.go` lines 427-430): compares the embedded
common node and the content; the `CommunityID` field is not compared. -/
def replyEquals (a b : Reply) : Bool :=
  commonNodeEquals a.common b.common && a.content == b.content

/-- The four runtime node variants, used both as the dynamic type of a
stored node and as the `fields.NodeType` selector passed to `Recent`. -/
inductive NodeKind where
  | identity
  | community
  | conversation
  | reply
  deriving DecidableEq

/-- View of a node as the store layer consumes it (`forest.Node` in
`store.go`): its canonical id string (`node.ID().String()`), its parent's
id string (`node.ParentID().String()`), its runtime variant, and its
creation timestamp (the `Created` field used by `Recent`). Ids are
embedded directly as their canonical strings, which is the
representation `MemoryStore` keys on. -/
structure StoreNode where
  kind : NodeKind
  nodeID : String
  parentID : String
  created : Nat
  deriving DecidableEq

/-- `MemoryStore` (`store.go` lines 24-27): an id-to-node map plus a
parent-id-to-ordered-child-id-list map. Both Go maps are embedded as
association lists in insertion order; the child lists themselves are
ordered Go slices and are embedded exactly. -/
structure MemoryStore where
  items : List (String × StoreNode)
  childMap : List (String × List String)
  deriving DecidableEq

/-- `NewMemoryStore` (`store.go` lines 31-36). -/
def newMemoryStore : MemoryStore := ⟨[], []⟩

/-- `MemoryStore.GetID` (`store.go` lines 67-70): map lookup, never an
error. `Get`/`GetIdentity`/`GetCommunity`/... all funnel here with the
id's canonical string. -/
def memGetID (m : MemoryStore) (id : String) : Option StoreNode × Option String :=
  (m.items.lookup id, none)

/-- Appends `child` to the child list of `parent`, creating the entry if
absent — the Go statement
`m.ChildMap[parentID] = append(m.ChildMap[parentID], id)`. -/
def childMapAppend (parent child : String) :
    List (String × List String) → List (String × List String)
  | [] => [(parent, [child])]
  | (p, cs) :: rest =>
      if p = parent then (p, cs ++ [child]) :: rest
      else (p, cs) :: childMapAppend parent child rest

/-- `MemoryStore.AddID` (`store.go` lines 93-102): a no-op returning nil
when the id is already present; otherwise stores the node and appends
its id to its parent's child list. The returned `Option String` is the
Go error, which is nil on both paths. -/
def memAddID (id : String) (node : StoreNode) (m : MemoryStore) :
    MemoryStore × Option String :=
  if (m.items.lookup id).isSome then (m, none)
  else ({ items := m.items ++ [(id, node)],
          childMap := childMapAppend node.parentID id m.childMap }, none)

/-- `MemoryStore.Add` (`store.go` lines 88-91): `AddID` keyed by the
node's own canonical id. -/
def memAdd (node : StoreNode) (m : MemoryStore) : MemoryStore × Option String :=
  memAddID node.nodeID node m

/-- `MemoryStore.Children` (`store.go` lines 72-86): the recorded child
ids of `id`, or the empty list when the id is unknown (not an error).
The source round-trips each stored key string through
`QualifiedHash.UnmarshalText`; since every stored key was produced by
`String()` on a hash, that conversion is embedded as the identity. -/
def memChildren (m : MemoryStore) (id : String) : List String × Option String :=
  ((m.childMap.lookup id).getD [], none)

/-- Stable insertion of `n` into a list already sorted by descending
`created`: `n` goes after every earlier element whose timestamp is at
least as large. This is the effect of the source's
`sort.SliceStable(candidates, ...Created > ...Created)` call immediately
after each append (`store.go` lines 115-117 and clones). -/
def insertByCreated (n : StoreNode) : List StoreNode → List StoreNode
  | [] => [n]
  | m :: rest =>
      if n.created > m.created then n :: m :: rest else m :: insertByCreated n rest

/-- One iteration of `Recent`'s loop body (`store.go` lines 110-134): a
type switch over the candidate node's runtime variant with cases for
`*Identity`, `*Community` and `*Reply` only — a `*Conversation` node
matches no case and is skipped regardless of the requested type. -/
def recentStep (t : NodeKind) (cands : List StoreNode) (n : StoreNode) : List StoreNode :=
  match n.kind with
  | .identity => if t = .identity then insertByCreated n cands else cands
  | .community => if t = .community then insertByCreated n cands else cands
  | .reply => if t = .reply then insertByCreated n cands else cands
  | .conversation => cands

/-- `MemoryStore.Recent` (`store.go` lines 107-139): accumulate matching
candidates sorted by descending creation time, then truncate to
`quantity`. Never an error. -/
def memRecent (m : MemoryStore) (t : NodeKind) (quantity : Nat) :
    List StoreNode × Option String :=
  let cands := m.items.foldl (fun acc p => recentStep t acc p.2) []
  (if cands.length > quantity then cands.take quantity else cands, none)

/-- `MemoryStore.CopyInto` (`store.go` lines 38-45): add every stored
node to the other store (here, another `MemoryStore`); iteration order
refines Go's unspecified map order, and `memAdd` never errors. -/
def memCopyInto (src dst : MemoryStore) : MemoryStore :=
  src.items.foldl (fun d p => (memAdd p.2 d).1) dst

/-- `CacheStore` (`store.go` lines 146-148): a fast cache store and a
slow backing store, both embedded as memory stores (the concrete store
implementation provided by this package). -/
structure CacheStore where
  cache : MemoryStore
  back : MemoryStore
  deriving DecidableEq

/-- `NewCacheStore` (`store.go` lines 159-164): eagerly copy every item
of `cache` into `back` before pairing them; the copy cannot fail for
memory stores, so construction always succeeds. -/
def newCacheStore (cache back : MemoryStore) : CacheStore :=
  ⟨cache, memCopyInto cache back⟩

/-- `CacheStore.Add` (`store.go` lines 177-186): write to the backing
store first, then to the cache. -/
def cacheStoreAdd (node : StoreNode) (cs : CacheStore) : CacheStore :=
  { cache := (memAdd node cs.cache).1, back := (memAdd node cs.back).1 }

/-- `CacheStore.getUsingFuncs` (`store.go` lines 188-206) as used by
`Get`: consult the cache; on a miss that hits the backing store, promote
the found node into the cache before returning it. Returns the lookup
result and the (possibly updated) cache store; memory stores never
error. -/
def cacheStoreGet (cs : CacheStore) (id : String) : Option StoreNode × CacheStore :=
  match (memGetID cs.cache id).1 with
  | some n => (some n, cs)
  | none =>
      match (memGetID cs.back id).1 with
      | some n => (some n, { cs with cache := (memAdd n cs.cache).1 })
      | none => (none, cs)

/-- The invariant of spec section 4.5: every id present in the cache
store is also present in the backing store. -/
def cacheInvariant (cs : CacheStore) : Prop :=
  ∀ id, (cs.cache.items.lookup id).isSome → (cs.back.items.lookup id).isSome

/-- A memory store whose every item is keyed by its node's own canonical
id — true of every store populated through `Add`/`CopyInto`, which key
on `node.ID().String()`. -/
def MemoryStore.WFKeys (m : MemoryStore) : Prop :=
  ∀ p ∈ m.items, p.1 = p.2.nodeID

instance (m : MemoryStore) : Decidable m.WFKeys := by
  unfold MemoryStore.WFKeys
  infer_instance

/-- Which hook set a notification came from: before or after the
underlying store add. -/
inductive HookPhase where
  | pre
  | post
  deriving DecidableEq

/-- One invocation of a subscription handler, recorded symbolically:
which hook set fired, for which subscription id, with which node. -/
structure HookCall where
  phase : HookPhase
  sub : Nat
  node : StoreNode
  deriving DecidableEq

/-- `Archive` (`store/archive.go` lines 21-26): a wrapped store plus the
pre-add and post-add subscriber maps. The maps are embedded as the lists
of their registered subscription ids (handlers are observed only through
the `HookCall` records the operations emit); all operations run through
the single serialized worker, so the embedding is direct state passing. -/
structure ArchiveState where
  store : MemoryStore
  preAdd : List Nat
  postAdd : List Nat
  deriving DecidableEq

/-- The reserved subscription id that is never assigned
(`neverAssigned`, `store/archive.go` line 16). -/
def neverAssigned : Nat := 0

/-- `Archive.notifySubscribed` (`store/archive.go` lines 206-212): run
every handler whose subscription id differs from the excluded one,
recorded as one `HookCall` per invoked handler. -/
def notifySubscribed (subs : List Nat) (phase : HookPhase) (node : StoreNode)
    (ignore : Nat) : List HookCall :=
  (subs.filter (fun s => s ≠ ignore)).map (fun s => ⟨phase, s, node⟩)

/-- `Archive.AddAs` (`store/archive.go` lines 191-202): if a node with
this id is already present in the wrapped store, return immediately;
otherwise run the pre-add hooks, add to the wrapped store, and (since
the memory store's add returned nil) run the post-add hooks. Returns the
new state and the hook invocations it performed. -/
def archiveAddAs (a : ArchiveState) (node : StoreNode) (addedByID : Nat) :
    ArchiveState × List HookCall :=
  if ((memGetID a.store node.nodeID).1).isSome then (a, [])
  else
    let preCalls := notifySubscribed a.preAdd .pre node addedByID
    let added := memAdd node a.store
    let postCalls :=
      if added.2 = none then notifySubscribed a.postAdd .post node addedByID else []
    ({ a with store := added.1 }, preCalls ++ postCalls)

/-- `Archive.Add` (`store/archive.go` lines 182-184): `AddAs` with the
never-assigned sentinel, so no subscriber is excluded. -/
def archiveAdd (a : ArchiveState) (node : StoreNode) : ArchiveState × List HookCall :=
  archiveAddAs a node neverAssigned

/-- The child-id function a store presents to the traversal algorithms
(`Children` with its always-nil error dropped). -/
def childrenOf (m : MemoryStore) (id : String) : List String :=
  (memChildren m id).1

/-- The wrapped error `Walk` produces when the visitor fails on an id
(`store/extended-store.go` line 54). -/
def wrapVisitErr (id e : String) : String :=
  "visitor function errored on " ++ id ++ ": " ++ e

/-- The queue loop of `Walk` (`store/extended-store.go` lines 48-61):
pop the front id, visit it (stopping with a wrapped error if the visitor
fails), then push its children on the back. Returns the ids visited, in
order, along with the result. The Go loop has no termination guarantee
on cyclic child maps, so the embedding carries explicit fuel; every
theorem below either holds for all fuel or supplies enough for the store
at hand. -/
def walkAux (ch : String → List String) (visitor : String → Option String) :
    Nat → List String → List String × Option String
  | _, [] => ([], none)
  | 0, _ :: _ => ([], none)
  | fuel + 1, c :: queue =>
      match visitor c with
      | some e => ([c], some (wrapVisitErr c e))
      | none =>
          let rest := walkAux ch visitor fuel (queue ++ ch c)
          (c :: rest.1, rest.2)

/-- `Walk` (`store/extended-store.go` lines 37-63): validate that the
store, start id and visitor are all non-nil (each missing one yields its
descriptive error before any traversal), then run the breadth-first
queue loop from the start id. -/
def goWalk (store : Option MemoryStore) (start : Option String)
    (visitor : Option (String → Option String)) (fuel : Nat) :
    List String × Option String :=
  match store, start, visitor with
  | none, _, _ => ([], some "store cannot be nil")
  | some _, none, _ => ([], some "start cannot be nil")
  | some _, some _, none => ([], some "visitor cannot be nil")
  | some s, some r, some v => walkAux (childrenOf s) v fuel [r]

/-- The breadth-first id sequence from a queue: what `Walk` visits when
the visitor never errors. -/
def bfsSeq (ch : String → List String) : Nat → List String → List String
  | _, [] => []
  | 0, _ :: _ => []
  | fuel + 1, c :: queue => c :: bfsSeq ch fuel (queue ++ ch c)

/-- `Archive.DescendantsOf` in `store/archive.go` lines 246-257: run
`Walk` from `id` with a visitor that appends every visited id to the
result and never errors. -/
def storeArchiveDescendantsOf (m : MemoryStore) (id : String) (fuel : Nat) :
    List String × Option String :=
  let walked := walkAux (childrenOf m) (fun _ => none) fuel [id]
  match walked.2 with
  | some e => ([], some ("failed traversing descendants: " ++ e))
  | none => (walked.1, none)

/-- `Archive.DescendantsOf` in `archive/archive.go` lines 181-198: an
explicit queue loop seeded with `id` that records only the children it
discovers, so the start id itself is never appended. -/
def archivePkgDescendantsOf (ch : String → List String) :
    Nat → List String → List String
  | _, [] => []
  | 0, _ :: _ => []
  | fuel + 1, t :: queue => ch t ++ archivePkgDescendantsOf ch fuel (queue ++ ch t)

/-- Continuation byte test for UTF-8 (0x80 through 0xBF). -/
def isCont (b : Nat) : Bool := decide (128 ≤ b ∧ b ≤ 191)

/-- Accepted range of the first continuation byte of a three-byte UTF-8
sequence, per lead byte (Go's `utf8.acceptRanges`: lead 0xE0 narrows the
low end to exclude overlong forms, lead 0xED narrows the high end to
exclude surrogates). -/
def utf8Acc3 (lead c : Nat) : Bool :=
  if lead = 224 then decide (160 ≤ c ∧ c ≤ 191)
  else if lead = 237 then decide (128 ≤ c ∧ c ≤ 159)
  else isCont c

/-- Accepted range of the first continuation byte of a four-byte UTF-8
sequence, per lead byte (lead 0xF0 excludes overlong forms, lead 0xF4
excludes code points above 0x10FFFF). -/
def utf8Acc4 (lead c : Nat) : Bool :=
  if lead = 240 then decide (144 ≤ c ∧ c ≤ 191)
  else if lead = 244 then decide (128 ≤ c ∧ c ≤ 143)
  else isCont c

/-- Go's `utf8.Valid`: the byte list is a sequence of well-formed UTF-8
encodings (shortest form, no surrogates, code points at most 0x10FFFF).
Lead bytes 0x80 through 0xC1 are invalid outright (stray continuations
and overlong two-byte forms). -/
def utf8Valid : List Nat → Bool
  | [] => true
  | b :: rest =>
      if b < 128 then utf8Valid rest
      else if b < 194 then false
      else if b ≤ 223 then
        match rest with
        | [] => false
        | c1 :: rest2 => isCont c1 && utf8Valid rest2
      else if b ≤ 239 then
        match rest with
        | c1 :: c2 :: rest2 => utf8Acc3 b c1 && isCont c2 && utf8Valid rest2
        | _ => false
      else if b ≤ 244 then
        match rest with
        | c1 :: c2 :: c3 :: rest2 =>
            utf8Acc4 b c1 && isCont c2 && isCont c3 && utf8Valid rest2
        | _ => false
      else false

/-- Byte value of the twig key delimiter, '/'. -/
def slashByte : Nat := 47

/-- Position of the last '/' byte in a twig key, defaulting to zero when
there is none (`twig.FromString`, `twig/twig.go` lines 40-48: the loop
records the position of every delimiter it passes). -/
def lastDelimiterPos (s : List Nat) : Nat :=
  ((List.range s.length).filter (fun i => s.getD i 0 = slashByte)).getLastD 0

/-- Decimal digit test. -/
def isDigit (b : Nat) : Bool := decide (48 ≤ b ∧ b ≤ 57)

/-- Whether `fmt.Sscanf(s, "%d", &uintVar)` succeeds on these bytes: an
optional leading '+' followed by at least one digit (trailing bytes are
ignored by `Sscanf`; a '-' fails for an unsigned target). -/
def scanUintOK : List Nat → Bool
  | [] => false
  | b :: rest =>
      if b = 43 then
        match rest with
        | [] => false
        | c :: _ => isDigit c
      else isDigit b

/-- Whether `twig.FromString` accepts these key bytes (`twig/twig.go`
lines 39-65): the last delimiter must not sit on the first byte nor
within the final byte, the name before it must be non-empty, and the
version after it must scan as an unsigned decimal. -/
def twigKeyOK (s : List Nat) : Bool :=
  let pos := lastDelimiterPos s
  if pos = 0 then false
  else if (pos : Int) > (s.length : Int) - 2 then false
  else if (s.take pos).length < 1 then false
  else scanUintOK (s.drop (pos + 1))

/-- Key components of an alternating key/value component list: every
even-indexed component must parse as a twig key. -/
def twigPairsOK : List (List Nat) → Bool
  | [] => true
  | key :: _ :: rest => twigKeyOK key && twigPairsOK rest
  | [_] => false

/-- Whether `twig.Data.UnmarshalBinary` succeeds (`twig/twig.go` lines
109-126): empty input is valid; otherwise split on NULL bytes, require
an even number of components, and parse every key component. -/
def twigUnmarshalOK (b : List Nat) : Bool :=
  if b.length = 0 then true
  else
    let components := b.splitOn 0
    if components.length % 2 ≠ 0 then false
    else twigPairsOK components

/-- `ContentTypeUTF8String` tag value (1, `forest.go` line 15). -/
def contentTypeUTF8String : Nat := 1

/-- Modelled from the spec: the `fields` constants file is absent from
the sources; the twig content-type tag is the other member of the closed
set of known content types (no claim below observes its numeric value). -/
def contentTypeTwig : Nat := 2

/-- Modelled from the spec: `ContentDescriptor.Validate` (its file is
absent from the sources) checks the type tag against the closed set of
known content types, rejecting an unknown tag with an explicit error
(spec section 9's closed-enumeration requirement, exercised by the
"undefined content type" row of `TestQualifiedContent`). -/
def contentDescriptorValidate (d : Descr) : Option String :=
  if d.dtype = contentTypeUTF8String then none
  else if d.dtype = contentTypeTwig then none
  else some "unknown content type"

/-- `QualifiedContent.Validate` (`fields/qualifieds.go` lines 160-178):
validate the descriptor, check the declared length against the payload
length, then apply the per-type content check. In the
`ContentTypeUTF8String` case the source builds `fmt.Errorf(...)` when
`utf8.Valid` fails but never returns it (line 170 lacks a `return`
keyword), so control falls through to the final `return nil` either way;
the embedding preserves that control flow, with the dead branch kept
visible. -/
def qualifiedContentValidate (q : Qualified) : Option String :=
  match contentDescriptorValidate q.descriptor with
  | some e => some e
  | none =>
      if q.descriptor.dlength ≠ q.blob.length then
        some "Descriptor length does not match value length"
      else if q.descriptor.dtype = contentTypeUTF8String then
        if utf8Valid q.blob then none else none
      else if q.descriptor.dtype = contentTypeTwig then
        if twigUnmarshalOK q.blob then none
        else some "invalid twig data in qualified content of type twig"
      else none

/-- Sample common fields used by the concrete round-trip witness. -/
def sampleCommonBase : CommonNode :=
  { id := [], ntype := 1, schemaVersion := 1, parent := emptyQualified,
    idDesc := ⟨1, 32⟩, depth := 0, metadata := emptyQualified,
    signatureAuthority := ⟨⟨1, 3⟩, [4, 5, 6]⟩, signature := ⟨⟨1, 2⟩, [9, 9]⟩ }

/-- Sample well-formed identity node (id precomputed from its own signed
bytes). -/
def sampleIdentity : Identity :=
  let base : Identity :=
    { common := sampleCommonBase, name := ⟨⟨1, 2⟩, [104, 105]⟩, publicKey := ⟨⟨1, 1⟩, [7]⟩ }
  { base with common := { base.common with id := identityComputeID base } }

/-- Sample well-formed community node. -/
def sampleCommunity : Community :=
  let base : Community :=
    { common := { sampleCommonBase with ntype := 2 }, name := ⟨⟨1, 2⟩, [99, 49]⟩ }
  { base with common := { base.common with id := communityComputeID base } }

/-- Sample well-formed conversation node. -/
def sampleConversation : Conversation :=
  let base : Conversation :=
    { common := { sampleCommonBase with ntype := 3 }, content := ⟨⟨1, 2⟩, [111, 107]⟩ }
  { base with common := { base.common with id := conversationComputeID base } }

/-- Sample well-formed reply node. -/
def sampleReply : Reply :=
  let base : Reply :=
    { common := { sampleCommonBase with ntype := 4 },
      communityID := ⟨⟨1, 3⟩, [1, 2, 3]⟩, content := ⟨⟨1, 2⟩, [121, 111]⟩ }
  { base with common := { base.common with id := replyComputeID base } }

/-- Sample store node used by the store-layer witnesses. -/
def sampleStoreNode : StoreNode := ⟨.reply, "idA", "idRoot", 10⟩

/-- A second store node with a different id. -/
def sampleStoreNode2 : StoreNode := ⟨.identity, "idB", "", 5⟩

/-- Sample memory store holding one node, built through `Add`. -/
def sampleMemStore : MemoryStore := (memAdd sampleStoreNode2 newMemoryStore).1

/-- Sample archive with two pre-add and three post-add subscribers over
an empty wrapped store. -/
def sampleArchive : ArchiveState := ⟨newMemoryStore, [1, 2], [1, 2, 3]⟩

/-- Node list of the walk witness scenario: a tree of eleven nodes
rooted at n01 (children n02 n03 n04; n02 has n05 n06; n03 has n07 n08;
n04 has n09 n10 n11). -/
def walkScenarioNodes : List StoreNode :=
  [⟨.community, "n01", "", 1⟩,
   ⟨.reply, "n02", "n01", 2⟩, ⟨.reply, "n03", "n01", 3⟩, ⟨.reply, "n04", "n01", 4⟩,
   ⟨.reply, "n05", "n02", 5⟩, ⟨.reply, "n06", "n02", 6⟩,
   ⟨.reply, "n07", "n03", 7⟩, ⟨.reply, "n08", "n03", 8⟩,
   ⟨.reply, "n09", "n04", 9⟩, ⟨.reply, "n10", "n04", 10⟩, ⟨.reply, "n11", "n04", 11⟩]

/-- The walk witness store: the eleven-node tree added in order. -/
def walkScenarioStore : MemoryStore :=
  walkScenarioNodes.foldl (fun m n => (memAdd n m).1) newMemoryStore

/-- The walk witness visitor: a stop signal on the fifth id of the
breadth-first order, nil everywhere else. -/
def walkScenarioVisitor (id : String) : Option String :=
  if id = "n05" then some "stop" else none

/-- The descendants scenario of spec section 8: community C, reply R1
under C, reply R2 under R1, replies R3a and R3b under R2, added in that
order. -/
def descendantsScenarioStore : MemoryStore :=
  ([⟨.community, "C", "", 1⟩, ⟨.reply, "R1", "C", 2⟩, ⟨.reply, "R2", "R1", 3⟩,
    ⟨.reply, "R3a", "R2", 4⟩, ⟨.reply, "R3b", "R2", 5⟩] :
      List StoreNode).foldl (fun m n => (memAdd n m).1) newMemoryStore

theorem recentStep_conversation (c : List StoreNode) (n : StoreNode) :
    recentStep .conversation c n = c := by
  unfold recentStep
  cases n.kind <;> simp

theorem foldl_recentStep_conversation (l : List (String × StoreNode))
    (acc : List StoreNode) :
    l.foldl (fun a p => recentStep .conversation a p.2) acc = acc := by
  induction l generalizing acc with
  | nil => rfl
  | cons p rest ih => simp [List.foldl_cons, recentStep_conversation, ih]

/-- C10: for every memory store state and every quantity, `Recent` for
the Conversation node type returns an empty slice and no error, even
when Conversation nodes are stored, because the runtime-type switch in
`MemoryStore.Recent` has cases only for the Identity, Community and
Reply variants. -/
theorem memoryStore_recent_conversation_empty (m : MemoryStore) (q : Nat) :
    memRecent m .conversation q = ([], none) := by
  unfold memRecent
  rw [foldl_recentStep_conversation]
  simp

/-- C9: `Reply.Equals` compares only the shared common fields and the
content field and never the community id: a concrete pair of replies
that differ only in their community id compares equal. -/
theorem reply_equals_ignores_communityID :
    replyEquals sampleReply { sampleReply with communityID := ⟨⟨1, 1⟩, [9]⟩ } = true ∧
    sampleReply.communityID ≠
      ({ sampleReply with communityID := ⟨⟨1, 1⟩, [9]⟩ } : Reply).communityID ∧
    sampleReply.common = ({ sampleReply with communityID := ⟨⟨1, 1⟩, [9]⟩ } : Reply).common ∧
    sampleReply.content = ({ sampleReply with communityID := ⟨⟨1, 1⟩, [9]⟩ } : Reply).content := by
  decide

/-- C2 fails on the code: on an input whose descriptor declares more
payload bytes than remain in the buffer, every one of the four
`Qualified*.UnmarshalBinary` implementations evaluates the unchecked
slice expression `unused[:q.Descriptor.Length]` and panics instead of
returning an error (each input below carries a complete three-byte
descriptor whose declared length exceeds the bytes that follow). -/
theorem qualified_unmarshal_truncated_panics :
    qualifiedHashUnmarshalBinary [1, 0, 32] = .panicked ∧
    qualifiedContentUnmarshalBinary [1, 0, 5, 104, 105] = .panicked ∧
    qualifiedKeyUnmarshalBinary [1, 0, 1] = .panicked ∧
    qualifiedSignatureUnmarshalBinary [1, 0, 200, 1, 2, 3] = .panicked := by
  decide

/-- C3 fails on the code: for a qualified content of type UTF8String
whose declared length matches its payload length and whose payload is
not valid UTF-8, `Validate` returns nil, because the error constructed
on the invalid-UTF-8 branch is discarded (the `fmt.Errorf` at
`fields/qualifieds.go` line 170 is not returned). -/
theorem qualifiedContent_validate_drops_utf8_error :
    qualifiedContentValidate ⟨⟨1, 1⟩, [255]⟩ = none ∧
    utf8Valid [255] = false ∧
    (⟨⟨1, 1⟩, [255]⟩ : Qualified).descriptor.dtype = contentTypeUTF8String ∧
    (⟨⟨1, 1⟩, [255]⟩ : Qualified).descriptor.dlength =
      (⟨⟨1, 1⟩, [255]⟩ : Qualified).blob.length := by
  decide

/-- C6 fails on the code: in the spec's concrete scenario (community C,
reply R1 under C, R2 under R1, R3a and R3b under R2), the Walk-based
`Archive.DescendantsOf` of `store/archive.go` returns R1 itself along
with its proper descendants, because the walk visits its start id; the
queue-based implementation in the `archive` package returns exactly the
proper descendants, matching the claim and the repository's own
`TestDescendantsOf`. -/
theorem descendantsOf_includes_root :
    storeArchiveDescendantsOf descendantsScenarioStore "R1" 32 =
      (["R1", "R2", "R3a", "R3b"], none) ∧
    "R1" ∈ (storeArchiveDescendantsOf descendantsScenarioStore "R1" 32).1 ∧
    archivePkgDescendantsOf (childrenOf descendantsScenarioStore) 32 ["R1"] =
      ["R2", "R3a", "R3b"] := by
  decide

theorem lookup_append_self {α β : Type} [BEq α] [LawfulBEq α] (l : List (α × β))
    (k : α) (v : β) : ((l ++ [(k, v)]).lookup k).isSome := by
  induction l with
  | nil => simp [List.lookup]
  | cons p rest ih =>
      rcases p with ⟨k', v'⟩
      by_cases h : k == k'
      · simp [List.lookup, h]
      · simp [List.lookup, h, ih]

theorem memAdd_present (m : MemoryStore) (n : StoreNode) :
    (((memAdd n m).1).items.lookup n.nodeID).isSome := by
  unfold memAdd memAddID
  by_cases h : (m.items.lookup n.nodeID).isSome
  · simp [h]
  · simp [h, lookup_append_self]

/-- C4: adding a node whose id is already stored returns nil and leaves
the memory store unchanged, so adding the same node twice leaves the
state observable through Get, Children and Recent identical to adding it
once. -/
theorem memoryStore_add_idempotent (m : MemoryStore) (n : StoreNode) :
    ((m.items.lookup n.nodeID).isSome → memAdd n m = (m, none)) ∧
    memAdd n (memAdd n m).1 = ((memAdd n m).1, none) ∧
    (∀ id, memGetID (memAdd n (memAdd n m).1).1 id = memGetID (memAdd n m).1 id) ∧
    (∀ id, memChildren (memAdd n (memAdd n m).1).1 id = memChildren (memAdd n m).1 id) ∧
    (∀ t q, memRecent (memAdd n (memAdd n m).1).1 t q = memRecent (memAdd n m).1 t q) := by
  have hnoop : ∀ s : MemoryStore, (s.items.lookup n.nodeID).isSome → memAdd n s = (s, none) := by
    intro s hp
    unfold memAdd memAddID
    simp [hp]
  have hsecond := hnoop _ (memAdd_present m n)
  exact ⟨hnoop m, hsecond, fun id => by rw [hsecond], fun id => by rw [hsecond],
    fun t q => by rw [hsecond]⟩

/-- Witness for C4: the no-op duplicate add and the idempotence equation
evaluated on a concrete store and nodes. -/
theorem memoryStore_add_idempotent_witness :
    memAdd sampleStoreNode2 sampleMemStore = (sampleMemStore, none) ∧
    memAdd sampleStoreNode (memAdd sampleStoreNode sampleMemStore).1 =
      ((memAdd sampleStoreNode sampleMemStore).1, none) := by
  exact ⟨(memoryStore_add_idempotent sampleMemStore sampleStoreNode2).1 (by decide),
    (memoryStore_add_idempotent sampleMemStore sampleStoreNode).2.1⟩

theorem memAdd_err (m : MemoryStore) (n : StoreNode) : (memAdd n m).2 = none := by
  unfold memAdd memAddID
  by_cases h : (m.items.lookup n.nodeID).isSome <;> simp [h]

theorem count_notifySubscribed (subs : List Nat) (ph : HookPhase) (n : StoreNode)
    (ignore s : Nat) :
    (notifySubscribed subs ph n ignore).count ⟨ph, s, n⟩ =
      (subs.filter (fun x => x ≠ ignore)).count s := by
  unfold notifySubscribed
  have hinj : Function.Injective (fun x : Nat => (⟨ph, x, n⟩ : HookCall)) := by
    intro x y hxy
    simpa using congrArg HookCall.sub hxy
  exact List.count_map_of_injective _ _ hinj s

theorem count_notifySubscribed_other_phase (subs : List Nat) (n : StoreNode)
    (ignore s : Nat) (ph ph' : HookPhase) (hne : ph ≠ ph') :
    (notifySubscribed subs ph n ignore).count ⟨ph', s, n⟩ = 0 := by
  rw [List.count_eq_zero]
  intro hmem
  unfold notifySubscribed at hmem
  rw [List.mem_map] at hmem
  obtain ⟨x, _, hx⟩ := hmem
  injection hx with h1 _ _
  exact hne h1

/-- C5: `Archive.AddAs` (and so `Add`, which is `AddAs` with the
never-assigned sentinel) invokes no pre-add or post-add hooks when a
node with the given id is already present in the wrapped store; when the
node is new, every registered hook whose subscription id differs from
the excluded id is invoked exactly once for that node, the excluded id
is never invoked, and a repeated add of the same node performs no
notifications at all. -/
theorem archive_addAs_notification (a : ArchiveState) (n : StoreNode) (excl : Nat) :
    (((memGetID a.store n.nodeID).1).isSome → archiveAddAs a n excl = (a, [])) ∧
    (¬ ((memGetID a.store n.nodeID).1).isSome →
      (a.preAdd.Nodup → ∀ s ∈ a.preAdd, s ≠ excl →
        (archiveAddAs a n excl).2.count ⟨.pre, s, n⟩ = 1) ∧
      (a.postAdd.Nodup → ∀ s ∈ a.postAdd, s ≠ excl →
        (archiveAddAs a n excl).2.count ⟨.post, s, n⟩ = 1) ∧
      (∀ ph, (archiveAddAs a n excl).2.count ⟨ph, excl, n⟩ = 0)) ∧
    (∀ excl2, (archiveAddAs (archiveAddAs a n excl).1 n excl2).2 = []) := by
  have habsent : ∀ h : ¬ ((memGetID a.store n.nodeID).1).isSome,
      archiveAddAs a n excl =
        ({ a with store := (memAdd n a.store).1 },
         notifySubscribed a.preAdd .pre n excl ++ notifySubscribed a.postAdd .post n excl) := by
    intro h
    unfold archiveAddAs
    simp [h, memAdd_err]
  refine ⟨fun h => ?_, fun h => ?_, fun excl2 => ?_⟩
  · unfold archiveAddAs
    simp [h]
  · rw [habsent h]
    refine ⟨fun hnd s hs hne => ?_, fun hnd s hs hne => ?_, fun ph => ?_⟩
    · rw [List.count_append, count_notifySubscribed,
        count_notifySubscribed_other_phase _ _ _ _ _ _ (by simp)]
      have : s ∈ a.preAdd.filter (fun x => x ≠ excl) := by
        rw [List.mem_filter]
        exact ⟨hs, by simp [hne]⟩
      rw [List.count_eq_one_of_mem (hnd.filter _) this]
    · rw [List.count_append, count_notifySubscribed,
        count_notifySubscribed_other_phase _ _ _ _ _ _ (by simp)]
      have : s ∈ a.postAdd.filter (fun x => x ≠ excl) := by
        rw [List.mem_filter]
        exact ⟨hs, by simp [hne]⟩
      rw [List.count_eq_one_of_mem (hnd.filter _) this]
    · have hz : ∀ l : List Nat, (l.filter (fun x => x ≠ excl)).count excl = 0 := by
        intro l
        rw [List.count_eq_zero]
        intro hmem
        rw [List.mem_filter] at hmem
        simp at hmem
      cases ph
      · rw [List.count_append, count_notifySubscribed,
          count_notifySubscribed_other_phase _ _ _ _ _ _ (by simp), hz]
      · rw [List.count_append, count_notifySubscribed_other_phase _ _ _ _ _ _ (by simp),
          count_notifySubscribed, hz]
  · by_cases h : ((memGetID a.store n.nodeID).1).isSome
    · have h1 : archiveAddAs a n excl = (a, []) := by
        unfold archiveAddAs
        simp [h]
      rw [h1]
      unfold archiveAddAs
      simp [h]
    · rw [habsent h]
      have hp : ((memGetID (memAdd n a.store).1 n.nodeID).1).isSome := by
        unfold memGetID
        exact memAdd_present a.store n
      unfold archiveAddAs
      simp [hp]

/-- Witness for C5: on a concrete archive with pre-add subscribers 1 and
2 and post-add subscribers 1, 2 and 3, adding a fresh node as
subscription 2 notifies pre-add hook 1 exactly once, post-add hook 3
exactly once, hook 2 never, and adding the same node again notifies no
one. -/
theorem archive_addAs_notification_witness :
    (archiveAddAs sampleArchive sampleStoreNode 2).2.count ⟨.pre, 1, sampleStoreNode⟩ = 1 ∧
    (archiveAddAs sampleArchive sampleStoreNode 2).2.count ⟨.post, 3, sampleStoreNode⟩ = 1 ∧
    (archiveAddAs sampleArchive sampleStoreNode 2).2.count ⟨.pre, 2, sampleStoreNode⟩ = 0 ∧
    (archiveAddAs (archiveAddAs sampleArchive sampleStoreNode 2).1 sampleStoreNode 2).2 = [] := by
  have h := archive_addAs_notification sampleArchive sampleStoreNode 2
  have habs := h.2.1 (by decide)
  exact ⟨habs.1 (by decide) 1 (by decide) (by decide),
    habs.2.1 (by decide) 3 (by decide) (by decide),
    habs.2.2 .pre, h.2.2 2⟩

theorem lookup_append_of_isSome {α β : Type} [BEq α] (l1 l2 : List (α × β)) (k : α)
    (h : (l1.lookup k).isSome) : (l1 ++ l2).lookup k = l1.lookup k := by
  induction l1 with
  | nil => simp [List.lookup] at h
  | cons p rest ih =>
      rcases p with ⟨k', v'⟩
      cases hk : k == k' with
      | true => simp [List.lookup, hk]
      | false =>
          simp only [List.cons_append, List.lookup, hk] at h ⊢
          exact ih h

theorem lookup_append_single_cases {α β : Type} [BEq α] [LawfulBEq α]
    (l : List (α × β)) (k k' : α) (v : β)
    (h : ((l ++ [(k, v)]).lookup k').isSome) : (l.lookup k').isSome ∨ k' = k := by
  induction l with
  | nil =>
      cases hk : k' == k with
      | true => exact Or.inr (eq_of_beq hk)
      | false => simp [List.lookup, hk] at h
  | cons p rest ih =>
      rcases p with ⟨k1, v1⟩
      cases hk : k' == k1 with
      | true => simp [List.lookup, hk]
      | false =>
          simp only [List.cons_append, List.lookup, hk] at h ⊢
          rcases ih h with h1 | h2
          · exact Or.inl h1
          · exact Or.inr h2

theorem lookup_eq_some_mem {α β : Type} [BEq α] [LawfulBEq α] (l : List (α × β))
    (k : α) (v : β) (h : l.lookup k = some v) : (k, v) ∈ l := by
  induction l with
  | nil => simp [List.lookup] at h
  | cons p rest ih =>
      rcases p with ⟨k1, v1⟩
      cases hk : k == k1 with
      | true =>
          simp only [List.lookup, hk] at h
          injection h with h
          subst h
          have := eq_of_beq hk
          subst this
          exact List.mem_cons_self _ _
      | false =>
          simp only [List.lookup, hk] at h
          exact List.mem_cons_of_mem _ (ih h)

theorem memAdd_preserves_lookup (m : MemoryStore) (n : StoreNode) (id : String)
    (h : (m.items.lookup id).isSome) : (((memAdd n m).1).items.lookup id).isSome := by
  unfold memAdd memAddID
  by_cases hp : (m.items.lookup n.nodeID).isSome
  · simpa [hp] using h
  · simp only [hp, if_false, Bool.false_eq_true]
    simpa [lookup_append_of_isSome _ _ _ h] using h

theorem memAdd_lookup_cases (m : MemoryStore) (n : StoreNode) (id : String)
    (h : (((memAdd n m).1).items.lookup id).isSome) :
    (m.items.lookup id).isSome ∨ id = n.nodeID := by
  unfold memAdd memAddID at h
  by_cases hp : (m.items.lookup n.nodeID).isSome
  · simp only [hp, if_true] at h
    exact Or.inl h
  · simp only [hp, if_false, Bool.false_eq_true] at h
    exact lookup_append_single_cases _ _ _ _ h

theorem foldl_memAdd_mono (l : List (String × StoreNode)) (dst : MemoryStore)
    (id : String) (h : (dst.items.lookup id).isSome) :
    ((l.foldl (fun d p => (memAdd p.2 d).1) dst).items.lookup id).isSome := by
  induction l generalizing dst with
  | nil => exact h
  | cons p rest ih => exact ih _ (memAdd_preserves_lookup _ _ _ h)

theorem foldl_memAdd_contains (l : List (String × StoreNode)) (dst : MemoryStore)
    (p : String × StoreNode) (hp : p ∈ l) :
    ((l.foldl (fun d q => (memAdd q.2 d).1) dst).items.lookup p.2.nodeID).isSome := by
  induction l generalizing dst with
  | nil => cases hp
  | cons q rest ih =>
      rcases List.mem_cons.mp hp with heq | hmem
      · subst heq
        exact foldl_memAdd_mono rest _ _ (memAdd_present dst p.2)
      · exact ih _ hmem

/-- C7: every node present in a CacheStore's cache store is also present
in its backing store: `NewCacheStore` establishes the invariant by
eagerly copying every cached item into the backing store, and both `Add`
(which writes to the backing store before the cache) and the get path
that promotes a backing-store hit into the cache preserve it. The
key-discipline hypotheses record that the given stores were themselves
populated through `Add`, which keys every item by its node's own id. -/
theorem cacheStore_invariant :
    (∀ cache back : MemoryStore, cache.WFKeys →
      cacheInvariant (newCacheStore cache back)) ∧
    (∀ (cs : CacheStore) (n : StoreNode), cacheInvariant cs →
      cacheInvariant (cacheStoreAdd n cs)) ∧
    (∀ (cs : CacheStore) (id : String), cacheInvariant cs → cs.back.WFKeys →
      cacheInvariant (cacheStoreGet cs id).2) := by
  refine ⟨fun cache back hwf id h => ?_, fun cs n hinv id h => ?_,
    fun cs id hinv hwf id' h => ?_⟩
  · obtain ⟨v, hv⟩ := Option.isSome_iff_exists.mp h
    have hmem := lookup_eq_some_mem _ _ _ hv
    have hkey := hwf _ hmem
    simp only [newCacheStore, memCopyInto]
    rw [show id = v.nodeID from hkey]
    exact foldl_memAdd_contains _ _ _ hmem
  · simp only [cacheStoreAdd] at h ⊢
    rcases memAdd_lookup_cases _ _ _ h with hold | hid
    · exact memAdd_preserves_lookup _ _ _ (hinv _ hold)
    · subst hid
      exact memAdd_present _ _
  · unfold cacheStoreGet memGetID at h ⊢
    rcases hc : cs.cache.items.lookup id with _ | n
    · rcases hb : cs.back.items.lookup id with _ | bn
      · simp only [hc, hb] at h
        exact hinv _ h
      · simp only [hc, hb] at h ⊢
        rcases memAdd_lookup_cases _ _ _ h with hold | hid
        · exact hinv _ hold
        · subst hid
          have hmem := lookup_eq_some_mem _ _ _ hb
          have hkey := hwf _ hmem
          rw [← hkey]
          simp [hb]
    · simp only [hc] at h
      exact hinv _ h

/-- Witness for C7: the invariant established on a concrete cache/back
pair and preserved across a concrete add and a concrete promoting get. -/
theorem cacheStore_invariant_witness :
    cacheInvariant (newCacheStore sampleMemStore newMemoryStore) ∧
    cacheInvariant
      (cacheStoreAdd sampleStoreNode (newCacheStore sampleMemStore newMemoryStore)) ∧
    cacheInvariant
      (cacheStoreGet (newCacheStore sampleMemStore newMemoryStore) "idB").2 := by
  have h1 := cacheStore_invariant.1 sampleMemStore newMemoryStore (by decide)
  exact ⟨h1, cacheStore_invariant.2.1 _ sampleStoreNode h1,
    cacheStore_invariant.2.2 _ "idB" h1 (by decide)⟩

theorem walkAux_no_error (ch : String → List String) (v : String → Option String) :
    ∀ (fuel : Nat) (queue : List String),
      (∀ id ∈ bfsSeq ch fuel queue, v id = none) →
      walkAux ch v fuel queue = (bfsSeq ch fuel queue, none) := by
  intro fuel
  induction fuel with
  | zero =>
      intro queue h
      cases queue <;> simp [walkAux, bfsSeq]
  | succ f ih =>
      intro queue h
      cases queue with
      | nil => simp [walkAux, bfsSeq]
      | cons c q =>
          have hc : v c = none := h c (by simp [bfsSeq])
          simp only [walkAux, bfsSeq, hc]
          rw [ih (q ++ ch c) (fun id hid => h id (by simp [bfsSeq, hid]))]

theorem walkAux_stops_at_error (ch : String → List String) (v : String → Option String) :
    ∀ (fuel : Nat) (queue : List String) (k : Nat) (id e : String),
      (∀ j ∈ (bfsSeq ch fuel queue).take k, v j = none) →
      (bfsSeq ch fuel queue).get? k = some id →
      v id = some e →
      (walkAux ch v fuel queue).1 = (bfsSeq ch fuel queue).take (k + 1) ∧
      (walkAux ch v fuel queue).1.length = k + 1 ∧
      (walkAux ch v fuel queue).2 = some (wrapVisitErr id e) := by
  intro fuel
  induction fuel with
  | zero =>
      intro queue k id e hpre hget hv
      cases queue <;> simp [bfsSeq] at hget
  | succ f ih =>
      intro queue k id e hpre hget hv
      cases queue with
      | nil => simp [bfsSeq] at hget
      | cons c q =>
          simp only [bfsSeq] at hpre hget ⊢
          cases k with
          | zero =>
              simp only [List.get?] at hget
              injection hget with hget
              subst hget
              simp [walkAux, hv]
          | succ k1 =>
              have hc : v c = none := by
                exact hpre c (by simp [List.take])
              have hpre1 : ∀ j ∈ (bfsSeq ch f (q ++ ch c)).take k1, v j = none := by
                intro j hj
                exact hpre j (by simp [List.take, hj])
              have hget1 : (bfsSeq ch f (q ++ ch c)).get? k1 = some id := by
                simpa [List.get?] using hget
              obtain ⟨h1, h2, h3⟩ := ih (q ++ ch c) k1 id e hpre1 hget1 hv
              simp only [walkAux, hc]
              refine ⟨?_, ?_, h3⟩
              · simp [List.take, h1]
              · simp [h2]

theorem walkAux_visits_take (ch : String → List String) (v : String → Option String) :
    ∀ (fuel : Nat) (queue : List String),
      ∃ t, (walkAux ch v fuel queue).1 = (bfsSeq ch fuel queue).take t := by
  intro fuel
  induction fuel with
  | zero =>
      intro queue
      exact ⟨0, by cases queue <;> simp [walkAux]⟩
  | succ f ih =>
      intro queue
      cases queue with
      | nil => exact ⟨0, by simp [walkAux]⟩
      | cons c q =>
          rcases hv : v c with _ | e
          · obtain ⟨t, ht⟩ := ih (q ++ ch c)
            exact ⟨t + 1, by simp [walkAux, bfsSeq, hv, List.take, ht]⟩
          · exact ⟨1, by simp [walkAux, bfsSeq, hv, List.take]⟩

/-- C8: `Walk` returns its descriptive error without visiting any id
when the store, the start id or the visitor is nil; otherwise it visits
ids in breadth-first order from the root (the root first), visiting the
whole breadth-first sequence when the visitor never errors; when the
visitor first errors on the id at zero-based breadth-first position `k`,
it visits exactly `k + 1` ids (the breadth-first prefix through the
offending id) and returns the error wrapped with that id; and the
visited list never repeats an id the breadth-first sequence does not
repeat. -/
theorem walk_spec :
    (∀ r v fuel, goWalk none r v fuel = ([], some "store cannot be nil")) ∧
    (∀ s v fuel, goWalk (some s) none v fuel = ([], some "start cannot be nil")) ∧
    (∀ s r fuel, goWalk (some s) (some r) none fuel = ([], some "visitor cannot be nil")) ∧
    (∀ s r v fuel, (∀ id ∈ bfsSeq (childrenOf s) fuel [r], v id = none) →
      goWalk (some s) (some r) (some v) fuel = (bfsSeq (childrenOf s) fuel [r], none)) ∧
    (∀ s r v fuel k id e,
      (∀ j ∈ (bfsSeq (childrenOf s) fuel [r]).take k, v j = none) →
      (bfsSeq (childrenOf s) fuel [r]).get? k = some id →
      v id = some e →
      (goWalk (some s) (some r) (some v) fuel).1.length = k + 1 ∧
      (goWalk (some s) (some r) (some v) fuel).1 =
        (bfsSeq (childrenOf s) fuel [r]).take (k + 1) ∧
      (goWalk (some s) (some r) (some v) fuel).2 = some (wrapVisitErr id e)) ∧
    (∀ s r v fuel, (bfsSeq (childrenOf s) fuel [r]).Nodup →
      (goWalk (some s) (some r) (some v) fuel).1.Nodup) := by
  refine ⟨fun r v fuel => rfl, fun s v fuel => rfl, fun s r fuel => rfl,
    fun s r v fuel h => ?_, fun s r v fuel k id e hpre hget hv => ?_,
    fun s r v fuel hnd => ?_⟩
  · exact walkAux_no_error _ _ _ _ h
  · obtain ⟨h1, h2, h3⟩ := walkAux_stops_at_error _ _ fuel [r] k id e hpre hget hv
    exact ⟨h2, h1, h3⟩
  · obtain ⟨t, ht⟩ := walkAux_visits_take (childrenOf s) v fuel [r]
    show (walkAux (childrenOf s) v fuel [r]).1.Nodup
    rw [ht]
    exact List.Nodup.sublist (List.take_sublist _ _) hnd

/-- Witness for C8: on the concrete eleven-node tree, a visitor that
signals stop on the fifth breadth-first id makes `Walk` visit exactly
five ids and return the wrapped stop signal; the same walk with a clean
visitor visits all eleven ids. -/
theorem walk_spec_witness :
    (goWalk (some walkScenarioStore) (some "n01") (some walkScenarioVisitor) 32).1.length = 5 ∧
    (goWalk (some walkScenarioStore) (some "n01") (some walkScenarioVisitor) 32).2 =
      some (wrapVisitErr "n05" "stop") ∧
    goWalk (some walkScenarioStore) (some "n01") (some (fun _ => none)) 32 =
      (bfsSeq (childrenOf walkScenarioStore) 32 ["n01"], none) ∧
    (bfsSeq (childrenOf walkScenarioStore) 32 ["n01"]).length = 11 := by
  have h5 := walk_spec.2.2.2.2.1 walkScenarioStore "n01" walkScenarioVisitor 32 4 "n05" "stop"
    (by decide) (by decide) (by decide)
  have hall := walk_spec.2.2.2.1 walkScenarioStore "n01" (fun _ => none) 32
    (fun id _ => rfl)
  exact ⟨h5.1, h5.2.2, hall, by decide⟩

@[simp] theorem DRes.bind_ok {α β : Type} (a : α) (f : α → DRes β) :
    DRes.bind (.ok a) f = f a := rfl

theorem parseU_encW : ∀ (w acc v : Nat) (rest : List Nat), v < 2 ^ (8 * w) →
    parseU w acc (encW w v ++ rest) = .ok (acc * 2 ^ (8 * w) + v, rest) := by
  intro w
  induction w with
  | zero =>
      intro acc v rest hv
      have hz : v = 0 := by simpa using Nat.lt_one_iff.mp (by simpa using hv)
      simp [encW, parseU, hz]
  | succ w ih =>
      intro acc v rest hv
      have h2 : 0 < 2 ^ (8 * w) := pow_pos (by norm_num) _
      simp only [encW, List.cons_append, parseU, List.append_eq]
      rw [ih (acc * 256 + v / 2 ^ (8 * w)) (v % 2 ^ (8 * w)) rest (Nat.mod_lt _ h2)]
      have harith : (acc * 256 + v / 2 ^ (8 * w)) * 2 ^ (8 * w) + v % 2 ^ (8 * w) =
          acc * 2 ^ (8 * (w + 1)) + v := by
        have hpow : 2 ^ (8 * (w + 1)) = 2 ^ (8 * w) * 256 := by
          rw [show 8 * (w + 1) = 8 * w + 8 from by ring, pow_add]
          norm_num
        have hdm := Nat.div_add_mod v (2 ^ (8 * w))
        calc (acc * 256 + v / 2 ^ (8 * w)) * 2 ^ (8 * w) + v % 2 ^ (8 * w)
            = acc * (2 ^ (8 * w) * 256) +
                (2 ^ (8 * w) * (v / 2 ^ (8 * w)) + v % 2 ^ (8 * w)) := by ring
          _ = acc * (2 ^ (8 * w) * 256) + v := by rw [hdm]
          _ = acc * 2 ^ (8 * (w + 1)) + v := by rw [hpow]
      rw [harith]

theorem decodeDescriptor_encode (d : Descr) (rest : List Nat) (h : d.WF) :
    decodeDescriptor (encodeDescriptor d ++ rest) = .ok (d, rest) := by
  obtain ⟨h1, h2⟩ := h
  unfold decodeDescriptor encodeDescriptor
  rw [List.append_assoc]
  rw [parseU_encW 1 0 d.dtype _ (by simpa using h1)]
  simp only [DRes.bind_ok]
  rw [parseU_encW 2 0 d.dlength rest (by simpa using h2)]
  simp

theorem unmarshalQualified_marshal (q : Qualified) (rest : List Nat) (h : q.WF) :
    unmarshalQualified (marshalQualified q ++ rest) = .ok (q, rest) := by
  obtain ⟨hd, hlen⟩ := h
  unfold unmarshalQualified marshalQualified
  rw [List.append_assoc, decodeDescriptor_encode _ _ hd]
  simp only [DRes.bind_ok]
  rw [if_pos (by simp [hlen])]
  rw [hlen, List.take_left, List.drop_left]

theorem parsePresign_marshal (n : CommonNode) (rest : List Nat) (h : n.WF) :
    parsePresign (marshalPresign n ++ rest) =
      .ok ({ n with id := [], signature := emptyQualified }, rest) := by
  obtain ⟨h1, h2, h3, h4, h5, h6, h7, h8⟩ := h
  unfold parsePresign marshalPresign
  simp only [List.append_assoc]
  rw [parseU_encW 8 0 _ _ (by simpa using h1)]
  simp only [DRes.bind_ok]
  rw [parseU_encW 1 0 _ _ (by simpa using h2)]
  simp only [DRes.bind_ok]
  rw [unmarshalQualified_marshal _ _ h3]
  simp only [DRes.bind_ok]
  rw [decodeDescriptor_encode _ _ h4]
  simp only [DRes.bind_ok]
  rw [parseU_encW 4 0 _ _ (by simpa using h5)]
  simp only [DRes.bind_ok]
  rw [unmarshalQualified_marshal _ _ h6]
  simp only [DRes.bind_ok]
  rw [unmarshalQualified_marshal _ _ h7]
  simp

theorem unmarshal_marshal_identity_aux (i : Identity) (h : i.WF) :
    unmarshalIdentity (identityMarshalBinary i) = .ok i := by
  rcases i with ⟨⟨id0, ty, ver, par, idd, dep, md, sa, sg⟩, nm, pk⟩
  obtain ⟨hc, hn, hp, hid⟩ := h
  have hsg : sg.WF := hc.2.2.2.2.2.2.2
  unfold unmarshalIdentity identityMarshalBinary identityMarshalSignedData
  simp only [List.append_assoc]
  rw [parsePresign_marshal _ _ hc]
  simp only [DRes.bind_ok]
  rw [unmarshalQualified_marshal _ _ hn]
  simp only [DRes.bind_ok]
  rw [unmarshalQualified_marshal _ _ hp]
  simp only [DRes.bind_ok]
  have hsig := unmarshalQualified_marshal sg [] hsg
  rw [List.append_nil] at hsig
  rw [hsig]
  simp only [DRes.bind_ok]
  simp only [identityComputeID, identityMarshalSignedData, marshalPresign] at hid ⊢
  simp only [DRes.ok.injEq]
  rw [← hid]

theorem unmarshal_marshal_community_aux (c : Community) (h : c.WF) :
    unmarshalCommunity (communityMarshalBinary c) = .ok c := by
  rcases c with ⟨⟨id0, ty, ver, par, idd, dep, md, sa, sg⟩, nm⟩
  obtain ⟨hc, hn, hid⟩ := h
  have hsg : sg.WF := hc.2.2.2.2.2.2.2
  unfold unmarshalCommunity communityMarshalBinary communityMarshalSignedData
  simp only [List.append_assoc]
  rw [parsePresign_marshal _ _ hc]
  simp only [DRes.bind_ok]
  rw [unmarshalQualified_marshal _ _ hn]
  simp only [DRes.bind_ok]
  have hsig := unmarshalQualified_marshal sg [] hsg
  rw [List.append_nil] at hsig
  rw [hsig]
  simp only [DRes.bind_ok]
  simp only [communityComputeID, communityMarshalSignedData, marshalPresign] at hid ⊢
  simp only [DRes.ok.injEq]
  rw [← hid]

theorem unmarshal_marshal_conversation_aux (c : Conversation) (h : c.WF) :
    unmarshalConversation (conversationMarshalBinary c) = .ok c := by
  rcases c with ⟨⟨id0, ty, ver, par, idd, dep, md, sa, sg⟩, ct⟩
  obtain ⟨hc, hct, hid⟩ := h
  have hsg : sg.WF := hc.2.2.2.2.2.2.2
  unfold unmarshalConversation conversationMarshalBinary conversationMarshalSignedData
  simp only [List.append_assoc]
  rw [parsePresign_marshal _ _ hc]
  simp only [DRes.bind_ok]
  rw [unmarshalQualified_marshal _ _ hct]
  simp only [DRes.bind_ok]
  have hsig := unmarshalQualified_marshal sg [] hsg
  rw [List.append_nil] at hsig
  rw [hsig]
  simp only [DRes.bind_ok]
  simp only [conversationComputeID, conversationMarshalSignedData, marshalPresign] at hid ⊢
  simp only [DRes.ok.injEq]
  rw [← hid]

theorem unmarshal_marshal_reply_aux (r : Reply) (h : r.WF) :
    unmarshalReply (replyMarshalBinary r) = .ok r := by
  rcases r with ⟨⟨id0, ty, ver, par, idd, dep, md, sa, sg⟩, cid, ct⟩
  obtain ⟨hc, hcid, hct, hid⟩ := h
  have hsg : sg.WF := hc.2.2.2.2.2.2.2
  unfold unmarshalReply replyMarshalBinary replyMarshalSignedData
  simp only [List.append_assoc]
  rw [parsePresign_marshal _ _ hc]
  simp only [DRes.bind_ok]
  rw [unmarshalQualified_marshal _ _ hcid]
  simp only [DRes.bind_ok]
  rw [unmarshalQualified_marshal _ _ hct]
  simp only [DRes.bind_ok]
  have hsig := unmarshalQualified_marshal sg [] hsg
  rw [List.append_nil] at hsig
  rw [hsig]
  simp only [DRes.bind_ok]
  simp only [replyComputeID, replyMarshalSignedData, marshalPresign] at hid ⊢
  simp only [DRes.ok.injEq]
  rw [← hid]

/-- C1: for every well-formed node of each variant, unmarshalling the
bytes produced by marshalling the node succeeds and yields a node all of
whose fields equal the original's, with the id recomputed during
unmarshalling equal to the original node's id (well-formedness bundles
the field-width and TLV invariants together with the content-addressing
invariant that the stored id is the digest of the node's own signed
bytes). -/
theorem marshal_unmarshal_roundtrip :
    (∀ i : Identity, i.WF → unmarshalIdentity (identityMarshalBinary i) = .ok i) ∧
    (∀ c : Community, c.WF → unmarshalCommunity (communityMarshalBinary c) = .ok c) ∧
    (∀ c : Conversation, c.WF →
      unmarshalConversation (conversationMarshalBinary c) = .ok c) ∧
    (∀ r : Reply, r.WF → unmarshalReply (replyMarshalBinary r) = .ok r) :=
  ⟨unmarshal_marshal_identity_aux, unmarshal_marshal_community_aux,
   unmarshal_marshal_conversation_aux, unmarshal_marshal_reply_aux⟩

/-- Witness for C1: the round trip evaluated on one concrete well-formed
node of each variant. -/
theorem marshal_unmarshal_roundtrip_witness :
    unmarshalIdentity (identityMarshalBinary sampleIdentity) = .ok sampleIdentity ∧
    unmarshalCommunity (communityMarshalBinary sampleCommunity) = .ok sampleCommunity ∧
    unmarshalConversation (conversationMarshalBinary sampleConversation) =
      .ok sampleConversation ∧
    unmarshalReply (replyMarshalBinary sampleReply) = .ok sampleReply :=
  ⟨marshal_unmarshal_roundtrip.1 sampleIdentity (by decide),
   marshal_unmarshal_roundtrip.2.1 sampleCommunity (by decide),
   marshal_unmarshal_roundtrip.2.2.1 sampleConversation (by decide),
   marshal_unmarshal_roundtrip.2.2.2 sampleReply (by decide)⟩

end ForestGo
